import Mathlib

/-!
Verification of the `agree` schema-comparison tool.

Go strings are modelled as lists of characters (`GoStr`); Go maps are
modelled as association lists whose iteration order is the insertion
order.  Fallible Go functions returning `(T, error)` are modelled as
`Except GoStr T`.  The external tree-sitter parser and the filesystem
walk are out of scope (the spec treats them as external collaborators):
where a function consumes them, the parsed result is a parameter.
-/

namespace Agree

/-- Go strings, modelled as lists of characters. -/
abbrev GoStr := List Char

/-- Conversion from a Lean string literal to the model type. -/
def gs (s : String) : GoStr := s.data

/-- ASCII model of `unicode.ToLower` on a single character. -/
def lowerChar (c : Char) : Char :=
  if c = 'A' then 'a' else if c = 'B' then 'b' else if c = 'C' then 'c'
  else if c = 'D' then 'd' else if c = 'E' then 'e' else if c = 'F' then 'f'
  else if c = 'G' then 'g' else if c = 'H' then 'h' else if c = 'I' then 'i'
  else if c = 'J' then 'j' else if c = 'K' then 'k' else if c = 'L' then 'l'
  else if c = 'M' then 'm' else if c = 'N' then 'n' else if c = 'O' then 'o'
  else if c = 'P' then 'p' else if c = 'Q' then 'q' else if c = 'R' then 'r'
  else if c = 'S' then 's' else if c = 'T' then 't' else if c = 'U' then 'u'
  else if c = 'V' then 'v' else if c = 'W' then 'w' else if c = 'X' then 'x'
  else if c = 'Y' then 'y' else if c = 'Z' then 'z' else c

/-- Model of `strings.ToLower`. -/
def toLowerL (s : GoStr) : GoStr := s.map lowerChar

/-- ASCII model of `unicode.IsSpace`. -/
def isSpaceChar (c : Char) : Bool :=
  c = ' ' || c = '\t' || c = '\n' || c = '\x0b' || c = '\x0c' || c = '\r'

/-- Drops trailing characters satisfying `isSpaceChar`. -/
def dropTrailingSpace (s : GoStr) : GoStr :=
  (s.reverse.dropWhile isSpaceChar).reverse

/-- Model of `strings.TrimSpace`. -/
def trimSpaceL (s : GoStr) : GoStr :=
  dropTrailingSpace (s.dropWhile isSpaceChar)

/-- Model of `strings.HasSuffix`: `len(s) >= len(suf)` and the tail equals `suf`. -/
def hasSuffixL (s suf : GoStr) : Bool :=
  decide (suf.length ≤ s.length) && decide (s.drop (s.length - suf.length) = suf)

/-- Model of `strings.TrimSuffix`. -/
def trimSuffixL (s suf : GoStr) : GoStr :=
  if hasSuffixL s suf then s.take (s.length - suf.length) else s

/-- Model of `strings.HasPrefix` (used by `strings.Index`). -/
def isPrefixL : GoStr → GoStr → Bool
  | [], _ => true
  | _ :: _, [] => false
  | a :: as, b :: bs => decide (a = b) && isPrefixL as bs

/-- Model of `strings.Index`: first index where `sub` occurs, `none` for Go's `-1`. -/
def firstIndexL (s sub : GoStr) : Option Nat :=
  if isPrefixL sub s then some 0
  else
    match s with
    | [] => none
    | _ :: t => (firstIndexL t sub).map (· + 1)

/-- Model of `strings.Contains`. -/
def containsL (s sub : GoStr) : Bool := (firstIndexL s sub).isSome

/-- Model of `strings.LastIndex`: largest index where `sub` occurs. -/
def lastIndexL (s sub : GoStr) : Option Nat :=
  ((List.range (s.length + 1)).filterMap
    (fun i => if isPrefixL sub (s.drop i) then some i else none)).getLast?

/-- Model of the Go slice expression `s[a:b]`. -/
def sliceL (s : GoStr) (a b : Nat) : GoStr := (s.take b).drop a

/-- Model of `strings.Split(src, "\n")`. -/
def splitNl : GoStr → List GoStr
  | [] => [[]]
  | c :: t =>
    match splitNl t with
    | [] => [[c]]
    | h :: hs => if c = '\n' then [] :: h :: hs else (c :: h) :: hs

/-- Model of `strings.Join(parts, ", ")`. -/
def joinCommaL : List GoStr → GoStr
  | [] => []
  | [x] => x
  | x :: y :: t => x ++ gs ", " ++ joinCommaL (y :: t)

/-! ## `pkg/parser/type_equivalence.go` -/

/-- `TypeEquivalenceMap`: the `equivalences` field, a map from a type to
its list of equivalent spellings, modelled as an association list. -/
structure TypeEquivalenceMap where
  equivalences : List (GoStr × List GoStr)

/-- Association-list lookup, modelling Go's `m[k]` with its `ok` flag. -/
def lookupL {α : Type} (m : List (GoStr × α)) (k : GoStr) : Option α :=
  match m with
  | [] => none
  | p :: t => if p.1 = k then some p.2 else lookupL t k

/-- `NewTypeEquivalenceMap`: the built-in cross-language equivalence table. -/
def NewTypeEquivalenceMap : TypeEquivalenceMap :=
  ⟨[ (gs "number", [gs "integer", gs "int", gs "float", gs "number"]),
     (gs "integer", [gs "number", gs "int", gs "integer"]),
     (gs "int", [gs "number", gs "integer", gs "int"]),
     (gs "float", [gs "number", gs "float"]),
     (gs "string", [gs "str", gs "string", gs "text"]),
     (gs "str", [gs "string", gs "str", gs "text"]),
     (gs "text", [gs "string", gs "str", gs "text"]),
     (gs "boolean", [gs "bool", gs "boolean"]),
     (gs "bool", [gs "boolean", gs "bool"]),
     (gs "email", [gs "emailstr", gs "email", gs "string().email"]),
     (gs "emailstr", [gs "email", gs "emailstr", gs "string().email"]),
     (gs "string().email", [gs "email", gs "emailstr", gs "string().email"]),
     (gs "url", [gs "string().url", gs "url"]),
     (gs "string().url", [gs "url", gs "string().url"]),
     (gs "uuid", [gs "string().uuid", gs "uuid"]),
     (gs "string().uuid", [gs "uuid", gs "string().uuid"]),
     (gs "datetime", [gs "date", gs "datetime", gs "timestamp"]),
     (gs "date", [gs "datetime", gs "date", gs "timestamp"]),
     (gs "timestamp", [gs "datetime", gs "date", gs "timestamp"]),
     (gs "array", [gs "array", gs "list"]),
     (gs "list", [gs "array", gs "list"]),
     (gs "string[]", [gs "array(string())", gs "list[str]", gs "string[]"]),
     (gs "number[]", [gs "array(number())", gs "list[int]", gs "list[float]", gs "number[]"]),
     (gs "object", [gs "object", gs "dict", gs "json"]),
     (gs "dict", [gs "object", gs "dict", gs "json"]),
     (gs "json", [gs "object", gs "dict", gs "json"]) ]⟩

/-- The `Optional[...]` arm of `extractNullableType` (Go lines 130-137);
`none` means the Go code falls through to the next check. -/
def optionalBracket (t : GoStr) : Option (GoStr × Bool) :=
  if containsL t (gs "optional[") then
    match firstIndexL t (gs "["), lastIndexL t (gs "]") with
    | some st, some en => if st < en then some (trimSpaceL (sliceL t (st + 1) en), true) else none
    | _, _ => none
  else none

/-- The `.nullable` / `.optional` arms of `extractNullableType`
(Go lines 139-163); `none` means the Go code falls through. -/
def builderNullable (t marker : GoStr) : Option (GoStr × Bool) :=
  if containsL t marker then
    if containsL t (gs "string") then some (gs "string", true)
    else if containsL t (gs "number") then some (gs "number", true)
    else if containsL t (gs "boolean") then some (gs "boolean", true)
    else none
  else none

/-- Body of `extractNullableType` after the initial `TrimSpace`. -/
def extractNullableCore (t : GoStr) : GoStr × Bool :=
  if hasSuffixL t (gs "?") then (trimSuffixL t (gs "?"), true)
  else if hasSuffixL t (gs "| none") then (trimSpaceL (trimSuffixL t (gs "| none")), true)
  else if hasSuffixL t (gs "| null") then (trimSpaceL (trimSuffixL t (gs "| null")), true)
  else
    match optionalBracket t with
    | some r => r
    | none =>
      match builderNullable t (gs ".nullable") with
      | some r => r
      | none =>
        match builderNullable t (gs ".optional") with
        | some r => r
        | none => (t, false)

/-- `extractNullableType`: extracts the base type and nullable status. -/
def extractNullableType (typeStr : GoStr) : GoStr × Bool :=
  extractNullableCore (trimSpaceL typeStr)

/-- `areBaseTypesEquivalent`: either type's alias list contains the other. -/
def areBaseTypesEquivalent (tem : TypeEquivalenceMap) (type1 type2 : GoStr) : Bool :=
  (match lookupL tem.equivalences type1 with
   | some equivalents => equivalents.contains type2
   | none => false) ||
  (match lookupL tem.equivalences type2 with
   | some equivalents => equivalents.contains type1
   | none => false)

/-- `AreTypesEquivalent`: checks if two types are equivalent across languages. -/
def AreTypesEquivalent (tem : TypeEquivalenceMap) (type1 type2 : GoStr) : Bool :=
  if type1 = type2 then true
  else
    let t1 := toLowerL (trimSpaceL type1)
    let t2 := toLowerL (trimSpaceL type2)
    if t1 = t2 then true
    else
      let p1 := extractNullableType t1
      let p2 := extractNullableType t2
      if p1.2 ≠ p2.2 then false
      else areBaseTypesEquivalent tem p1.1 p2.1

/-- The `switch baseType` of `GetCanonicalType` (Go lines 174-189). -/
def canonSwitch (b : GoStr) : GoStr :=
  if b = gs "int" ∨ b = gs "integer" then gs "integer"
  else if b = gs "str" then gs "string"
  else if b = gs "bool" then gs "boolean"
  else if b = gs "emailstr" ∨ b = gs "string().email" then gs "email"
  else if b = gs "datetime" ∨ b = gs "timestamp" then gs "date"
  else if b = gs "dict" then gs "object"
  else if b = gs "list" then gs "array"
  else b

/-- Appends the `"?"` marker to the canonical base when nullable
(`GetCanonicalType` lines 191-195). -/
def canonAddNullable (p : GoStr × Bool) : GoStr :=
  if p.2 then canonSwitch p.1 ++ gs "?" else canonSwitch p.1

/-- `GetCanonicalType`: canonical type representation for comparison. -/
def GetCanonicalType (typeStr : GoStr) : GoStr :=
  canonAddNullable (extractNullableType (toLowerL (trimSpaceL typeStr)))

example : AreTypesEquivalent NewTypeEquivalenceMap (gs "integer") (gs "number") = true := by decide
example : AreTypesEquivalent NewTypeEquivalenceMap (gs "string") (gs "string?") = false := by decide
example : GetCanonicalType (gs "Optional[int]") = gs "integer?" := by decide
example : GetCanonicalType (gs "z.string().nullable()") = gs "string?" := by decide
example : GetCanonicalType (gs "  STR ") = gs "string" := by decide

/-- `areBaseTypesEquivalent` is symmetric: it is a disjunction of the two
directed alias-table lookups. -/
theorem areBaseTypesEquivalent_comm (tem : TypeEquivalenceMap) (x y : GoStr) :
    areBaseTypesEquivalent tem x y = areBaseTypesEquivalent tem y x := by
  unfold areBaseTypesEquivalent
  exact Bool.or_comm _ _

end Agree

namespace Agree

/-- C2: the type-equivalence predicate `AreTypesEquivalent` is reflexive
(`equivalent(t, t)` is true for every type string `t`, in particular every
canonicalized one) and symmetric for all inputs and for every equivalence
table, in particular the built-in `NewTypeEquivalenceMap`. -/
theorem C2_areTypesEquivalent_refl_symm :
    (∀ (tem : TypeEquivalenceMap) (t : GoStr),
        AreTypesEquivalent tem t t = true) ∧
    (∀ (tem : TypeEquivalenceMap) (a b : GoStr),
        AreTypesEquivalent tem a b = AreTypesEquivalent tem b a) := by
  constructor
  · intro tem t
    unfold AreTypesEquivalent
    rw [if_pos rfl]
  · intro tem a b
    unfold AreTypesEquivalent
    by_cases hab : a = b
    · subst hab; rfl
    · rw [if_neg hab, if_neg (Ne.symm hab)]
      by_cases h12 : toLowerL (trimSpaceL a) = toLowerL (trimSpaceL b)
      · simp [h12]
      · rw [if_neg h12, if_neg (Ne.symm h12)]
        by_cases hn :
            (extractNullableType (toLowerL (trimSpaceL a))).2
              = (extractNullableType (toLowerL (trimSpaceL b))).2
        · have h1 : ¬((extractNullableType (toLowerL (trimSpaceL a))).2
              ≠ (extractNullableType (toLowerL (trimSpaceL b))).2) :=
            not_not_intro hn
          have h2 : ¬((extractNullableType (toLowerL (trimSpaceL b))).2
              ≠ (extractNullableType (toLowerL (trimSpaceL a))).2) :=
            not_not_intro hn.symm
          rw [if_neg h1, if_neg h2]
          exact areBaseTypesEquivalent_comm tem _ _
        · rw [if_pos hn, if_pos (Ne.symm hn)]

/-- C3: if two type strings are not equal after case/whitespace
normalization and exactly one of the two carries a nullability marker
(extracted independently from each side), then `AreTypesEquivalent`
returns false, whatever the equivalence table says about the bases. -/
theorem C3_differing_nullability_not_equivalent
    (tem : TypeEquivalenceMap) (a b : GoStr)
    (hne : toLowerL (trimSpaceL a) ≠ toLowerL (trimSpaceL b))
    (hnul : (extractNullableType (toLowerL (trimSpaceL a))).2
              ≠ (extractNullableType (toLowerL (trimSpaceL b))).2) :
    AreTypesEquivalent tem a b = false := by
  have hab : a ≠ b := fun h => hne (by rw [h])
  unfold AreTypesEquivalent
  rw [if_neg hab, if_neg hne, if_pos hnul]

/-! ## The block extractor `extractAgreeBlocks` (legacy parser file) -/

/-- `agreeBlock`: a single agree section inside a file.  The Go field
`Type` is called `typ` here because `Type` is reserved in Lean. -/
structure agreeBlock where
  nickname : GoStr
  typ : GoStr
  code : GoStr
  deriving DecidableEq

/-- The Outside-state header parse of `extractAgreeBlocks`: find
`"[agree:"`, find the closing `"]"`, split the header on the first `":"`;
any failure means the line is treated as plain text. -/
def startHeader (line : GoStr) : Option (GoStr × GoStr) :=
  match firstIndexL line (gs "[agree:") with
  | none => none
  | some idx =>
    let rest := line.drop (idx + (gs "[agree:").length)
    match firstIndexL rest (gs "]") with
    | none => none
    | some e =>
      let header := rest.take e
      match firstIndexL header (gs ":") with
      | none => none
      | some i => some (trimSpaceL (header.take i), trimSpaceL (header.drop (i + 1)))

/-- One line of the `extractAgreeBlocks` loop: state is the emitted
blocks plus the optional open block (`current`). -/
def extractStep (st : List agreeBlock × Option agreeBlock) (line : GoStr) :
    List agreeBlock × Option agreeBlock :=
  match st.2 with
  | none =>
    match startHeader line with
    | some nd => (st.1, some ⟨nd.1, nd.2, []⟩)
    | none => (st.1, none)
  | some cur =>
    if containsL line (gs "[agree:end]") then (st.1 ++ [cur], none)
    else (st.1, some ⟨cur.nickname, cur.typ, cur.code ++ line ++ [ '\n' ]⟩)

/-- `extractAgreeBlocks` on the already-split line list. -/
def extractAgreeBlocksLines (lines : List GoStr) : List agreeBlock :=
  (lines.foldl extractStep ([], none)).1

/-- `extractAgreeBlocks`: scans the given text for agree comment blocks. -/
def extractAgreeBlocks (src : GoStr) : List agreeBlock :=
  extractAgreeBlocksLines (splitNl src)

/-- The buffer accumulated by consecutive Inside-state lines:
each line followed by a newline. -/
def joinNlL : List GoStr → GoStr
  | [] => []
  | l :: t => l ++ '\n' :: joinNlL t

/-- One step of the extractor only appends to the emitted-blocks list, so
the accumulator can be factored out of the step. -/
theorem extractStep_shift (st : List agreeBlock × Option agreeBlock) (line : GoStr) :
    extractStep st line
      = (st.1 ++ (extractStep ([], st.2) line).1, (extractStep ([], st.2) line).2) := by
  rcases st with ⟨blocks, cur⟩
  unfold extractStep
  rcases cur with _ | cur
  · rcases h : startHeader line with _ | nd <;> simp [h]
  · rcases h : containsL line (gs "[agree:end]") with _ | _ <;> simp [h]

/-- The emitted-blocks accumulator factors out of the whole fold. -/
theorem foldl_extractStep_shift (lines : List GoStr) (blocks : List agreeBlock)
    (cur : Option agreeBlock) :
    lines.foldl extractStep (blocks, cur)
      = (blocks ++ (lines.foldl extractStep ([], cur)).1,
         (lines.foldl extractStep ([], cur)).2) := by
  induction lines generalizing blocks cur with
  | nil => simp
  | cons l t ih =>
    simp only [List.foldl_cons]
    rw [extractStep_shift (blocks, cur) l, ih, extractStep_shift ([], cur) l,
      ih (([], cur).1 ++ (extractStep ([], ([], cur).2) l).1)]
    simp [List.append_assoc]

/-- While Inside, every line without the end marker is appended to the
open block's buffer and nothing is emitted. -/
theorem foldl_inside_no_end (body : List GoStr)
    (h : ∀ l ∈ body, containsL l (gs "[agree:end]") = false)
    (blocks : List agreeBlock) (cur : agreeBlock) :
    body.foldl extractStep (blocks, some cur)
      = (blocks, some ⟨cur.nickname, cur.typ, cur.code ++ joinNlL body⟩) := by
  induction body generalizing cur with
  | nil => simp [joinNlL]
  | cons l t ih =>
    have hl : containsL l (gs "[agree:end]") = false := h l (by simp)
    have ht : ∀ x ∈ t, containsL x (gs "[agree:end]") = false :=
      fun x hx => h x (by simp [hx])
    simp only [List.foldl_cons]
    have hstep : extractStep (blocks, some cur) l
        = (blocks, some ⟨cur.nickname, cur.typ, cur.code ++ l ++ [ '\n' ]⟩) := by
      unfold extractStep
      simp [hl]
    rw [hstep, ih ht]
    simp [joinNlL, List.append_assoc]

end Agree

namespace Agree

/-- C7: if the extractor is Inside an open block after the lines `pre`
and the remaining input `rest` contains no `[agree:end]` line, then the
open block is discarded silently: the regions extracted from
`pre ++ rest` are exactly those extracted from `pre`, regardless of the
content of `rest`.  The extractor is a total function, so no error is
possible. -/
theorem C7_unterminated_block_discarded (pre rest : List GoStr) (blk : agreeBlock)
    (hInside : (pre.foldl extractStep ([], none)).2 = some blk)
    (hNoEnd : ∀ l ∈ rest, containsL l (gs "[agree:end]") = false) :
    extractAgreeBlocksLines (pre ++ rest) = extractAgreeBlocksLines pre := by
  unfold extractAgreeBlocksLines
  rw [List.foldl_append]
  rcases hp : pre.foldl extractStep ([], none) with ⟨acc, cur⟩
  rw [hp] at hInside
  simp only at hInside
  rw [hInside, foldl_inside_no_end rest hNoEnd acc blk]

/-- C7 witness: a block opened by a start marker and never closed
contributes no region even though a content line follows. -/
theorem C7_witness :
    (([gs "[agree:user:zod]"].foldl extractStep ([], none)).2
        = some ⟨gs "user", gs "zod", []⟩) ∧
    (∀ l ∈ [gs "id = 1", gs "[agree:other:zod]"],
        containsL l (gs "[agree:end]") = false) ∧
    extractAgreeBlocksLines
        ([gs "[agree:user:zod]"] ++ [gs "id = 1", gs "[agree:other:zod]"])
      = extractAgreeBlocksLines [gs "[agree:user:zod]"] :=
  ⟨by decide, by decide,
    C7_unterminated_block_discarded [gs "[agree:user:zod]"]
      [gs "id = 1", gs "[agree:other:zod]"] ⟨gs "user", gs "zod", []⟩
      (by decide) (by decide)⟩

/-- C8: while Inside, every line without the end marker — including lines
that look like nested start markers, which open nothing — is appended to
the buffer; the first line containing `[agree:end]` emits
`{nickname, dialect, rawCode = buffer}` and returns the extractor to
Outside, with the emitted region preceding all regions of the remaining
input (appearance order). -/
theorem C8_inside_appends_and_end_emits
    (header : GoStr) (body : List GoStr) (endLine : GoStr) (rest : List GoStr)
    (n d : GoStr)
    (hHead : startHeader header = some (n, d))
    (hBody : ∀ l ∈ body, containsL l (gs "[agree:end]") = false)
    (hEnd : containsL endLine (gs "[agree:end]") = true) :
    extractAgreeBlocksLines (header :: (body ++ endLine :: rest))
      = ⟨n, d, joinNlL body⟩ :: extractAgreeBlocksLines rest := by
  unfold extractAgreeBlocksLines
  simp only [List.foldl_cons]
  have hopen : extractStep ([], none) header = ([], some ⟨n, d, []⟩) := by
    unfold extractStep
    simp [hHead]
  rw [hopen, List.foldl_append, foldl_inside_no_end body hBody [] ⟨n, d, []⟩]
  simp only [List.foldl_cons]
  have hclose : extractStep ([], some ⟨n, d, [] ++ joinNlL body⟩) endLine
      = ([⟨n, d, joinNlL body⟩], none) := by
    unfold extractStep
    simp [hEnd]
  rw [hclose, foldl_extractStep_shift rest [⟨n, d, joinNlL body⟩] none]
  simp

/-- C8 witness: the body lines (one of them a nested start marker, which
is swallowed as plain text) end up verbatim in the emitted region's code,
and the end line closes the region. -/
theorem C8_witness :
    (startHeader (gs "[agree:user:zod]") = some (gs "user", gs "zod")) ∧
    (∀ l ∈ [gs "  id: z.number(),", gs "[agree:nested:zod]"],
        containsL l (gs "[agree:end]") = false) ∧
    (containsL (gs "// [agree:end]") (gs "[agree:end]") = true) ∧
    extractAgreeBlocksLines
        ((gs "[agree:user:zod]")
          :: ([gs "  id: z.number(),", gs "[agree:nested:zod]"]
              ++ (gs "// [agree:end]") :: [gs "tail"]))
      = ⟨gs "user", gs "zod",
          joinNlL [gs "  id: z.number(),", gs "[agree:nested:zod]"]⟩
          :: extractAgreeBlocksLines [gs "tail"] :=
  ⟨by decide, by decide, by decide,
    C8_inside_appends_and_end_emits (gs "[agree:user:zod]")
      [gs "  id: z.number(),", gs "[agree:nested:zod]"] (gs "// [agree:end]")
      [gs "tail"] (gs "user") (gs "zod") (by decide) (by decide) (by decide)⟩

end Agree

namespace Agree

/-! ## Models and the comparator `CompareModels` -/

/-- `Field`: a single field with a name and type (Go fields `Name`, `Type`). -/
structure Field where
  name : GoStr
  typ : GoStr
  deriving DecidableEq

/-- `Model`: a parsed model with its fields; the Go `map[string]Field` is
an association list in insertion order. -/
structure Model where
  name : GoStr
  fields : List (GoStr × Field)
  deriving DecidableEq

/-- The `missingSQL` list built by `CompareModels`: Pydantic-side field
names absent from the SQLAlchemy model, in iteration order. -/
def missingSQLOf (sqlModel pydModel : Model) : List GoStr :=
  pydModel.fields.filterMap fun p =>
    if (lookupL sqlModel.fields p.1).isNone then some p.1 else none

/-- The `missingPyd` list built by `CompareModels`. -/
def missingPydOf (sqlModel pydModel : Model) : List GoStr :=
  sqlModel.fields.filterMap fun p =>
    if (lookupL pydModel.fields p.1).isNone then some p.1 else none

/-- The `typeMismatch` list built by `CompareModels`: fields present on
both sides whose stored type strings differ, rendered
`name (leftType != rightType)`. -/
def typeMismatchOf (sqlModel pydModel : Model) : List GoStr :=
  pydModel.fields.filterMap fun p =>
    match lookupL sqlModel.fields p.1 with
    | none => none
    | some sf =>
      if sf.typ ≠ p.2.typ then
        some (p.1 ++ gs " (" ++ sf.typ ++ gs " != " ++ p.2.typ ++ gs ")")
      else none

/-- The per-nickname paragraph of the `CompareModels` report (empty when
the nickname has no discrepancy). -/
def compareEntry (nick : GoStr) (sqlModel pydModel : Model) : GoStr :=
  let missingSQL := missingSQLOf sqlModel pydModel
  let missingPyd := missingPydOf sqlModel pydModel
  let typeMismatch := typeMismatchOf sqlModel pydModel
  if missingSQL.length + missingPyd.length + typeMismatch.length > 0 then
    gs "Model " ++ nick ++ gs ":\n"
      ++ (if missingSQL.length > 0 then
            gs "  Missing in SQLAlchemy: " ++ joinCommaL missingSQL ++ gs "\n" else [])
      ++ (if missingPyd.length > 0 then
            gs "  Missing in Pydantic: " ++ joinCommaL missingPyd ++ gs "\n" else [])
      ++ (if typeMismatch.length > 0 then
            gs "  Type mismatches: " ++ joinCommaL typeMismatch ++ gs "\n" else [])
  else []

/-- `CompareModels`: compares left (SQLAlchemy) models with right
(Pydantic) models and returns a report. -/
def CompareModels (sqlModels pydModels : List (GoStr × Model)) : GoStr :=
  let sb := sqlModels.foldl
    (fun acc p =>
      match lookupL pydModels p.1 with
      | none => acc
      | some pydModel => acc ++ compareEntry p.1 p.2 pydModel) []
  if sb.length = 0 then gs "No mismatches found" else sb

/-- `CompareModelsWithGrammars`: compares models from different schema
types; an unknown schema type yields the not-found sentinel string. -/
def CompareModelsWithGrammars (models : List (GoStr × List (GoStr × Model)))
    (schemaType1 schemaType2 : GoStr) : GoStr :=
  match lookupL models schemaType1, lookupL models schemaType2 with
  | some models1, some models2 => CompareModels models1 models2
  | _, _ =>
    gs "Schema types '" ++ schemaType1 ++ gs "' or '" ++ schemaType2 ++ gs "' not found"

/-- Unfolding `containsL` on a cons cell. -/
theorem containsL_cons (c : Char) (t sub : GoStr) :
    containsL (c :: t) sub = (isPrefixL sub (c :: t) || containsL t sub) := by
  have hfi : firstIndexL (c :: t) sub
      = if isPrefixL sub (c :: t) then some 0
        else (firstIndexL t sub).map (· + 1) := rfl
  unfold containsL
  rw [hfi]
  cases h : isPrefixL sub (c :: t) <;> simp [h]

/-- `containsL` is monotone under prepending text. -/
theorem containsL_append_right (a b sub : GoStr) (h : containsL b sub = true) :
    containsL (a ++ b) sub = true := by
  induction a with
  | nil => simpa
  | cons c t ih => rw [List.cons_append, containsL_cons]; simp [ih]

end Agree

namespace Agree

/-- C9: one shared nickname, one field `id` typed `integer` on the left
and `string` on the right: exactly one type-mismatch entry, rendered
`id (integer != string)` with the (left, right) type order preserved. -/
theorem C9_single_mismatch_report :
    typeMismatchOf ⟨gs "User", [(gs "id", ⟨gs "id", gs "integer"⟩)]⟩
        ⟨gs "User", [(gs "id", ⟨gs "id", gs "string"⟩)]⟩
      = [gs "id (integer != string)"] ∧
    CompareModels [(gs "user", ⟨gs "User", [(gs "id", ⟨gs "id", gs "integer"⟩)]⟩)]
        [(gs "user", ⟨gs "User", [(gs "id", ⟨gs "id", gs "string"⟩)]⟩)]
      = gs "Model user:\n  Type mismatches: id (integer != string)\n" := by
  constructor
  · decide
  · decide

/-- C6: whenever at least one of the two requested schema types was never
loaded, `CompareModelsWithGrammars` returns normally with the literal
not-found sentinel — independent of every loaded model, so no diffing
happens — and that string contains `"not found"`. -/
theorem C6_unknown_dialect_sentinel (models : List (GoStr × List (GoStr × Model)))
    (schemaType1 schemaType2 : GoStr)
    (h : lookupL models schemaType1 = none ∨ lookupL models schemaType2 = none) :
    CompareModelsWithGrammars models schemaType1 schemaType2
        = gs "Schema types '" ++ schemaType1 ++ gs "' or '" ++ schemaType2
            ++ gs "' not found" ∧
    containsL (CompareModelsWithGrammars models schemaType1 schemaType2)
        (gs "not found") = true := by
  have hsent : CompareModelsWithGrammars models schemaType1 schemaType2
      = gs "Schema types '" ++ schemaType1 ++ gs "' or '" ++ schemaType2
          ++ gs "' not found" := by
    unfold CompareModelsWithGrammars
    rcases h with h | h
    · rw [h]
    · rw [h]
      rcases lookupL models schemaType1 with _ | m1 <;> rfl
  refine ⟨hsent, ?_⟩
  rw [hsent]
  exact containsL_append_right _ _ _ (by decide)

/-- C6 witness: comparing a loaded dialect against a never-loaded one. -/
theorem C6_witness :
    (lookupL [(gs "pydantic", ([] : List (GoStr × Model)))] (gs "pydantic") = none ∨
     lookupL [(gs "pydantic", ([] : List (GoStr × Model)))] (gs "zod") = none) ∧
    CompareModelsWithGrammars [(gs "pydantic", [])] (gs "pydantic") (gs "zod")
        = gs "Schema types '" ++ gs "pydantic" ++ gs "' or '" ++ gs "zod"
            ++ gs "' not found" ∧
    containsL (CompareModelsWithGrammars [(gs "pydantic", [])] (gs "pydantic") (gs "zod"))
        (gs "not found") = true :=
  ⟨Or.inr (by decide),
    C6_unknown_dialect_sentinel [(gs "pydantic", [])] (gs "pydantic") (gs "zod")
      (Or.inr (by decide))⟩

/-- C1 (code-bug evidence): `typesEqual("integer", "number")` holds, yet
the comparator — which tests exact string equality of the stored type
texts, not `AreTypesEquivalent` — still records a type mismatch for a
field typed `integer` on the left and `number` on the right. -/
theorem C1_comparator_ignores_type_equivalence :
    AreTypesEquivalent NewTypeEquivalenceMap (gs "integer") (gs "number") = true ∧
    CompareModelsWithGrammars
        [(gs "pydantic", [(gs "user", ⟨gs "User", [(gs "id", ⟨gs "id", gs "integer"⟩)]⟩)]),
         (gs "zod", [(gs "user", ⟨gs "User", [(gs "id", ⟨gs "id", gs "number"⟩)]⟩)])]
        (gs "pydantic") (gs "zod")
      = gs "Model user:\n  Type mismatches: id (integer != number)\n" := by
  constructor
  · decide
  · decide

/-! ## `extractTypeScriptType` (grammar engine, object-literal strategy) -/

/-- `extractTypeScriptType`: classifies a Zod value expression's textual
shape.  The tree-sitter node is consumed only through its kind
(`node.Kind()`) and its text (`node.Utf8Text(src)`), which are the two
parameters here. -/
def extractTypeScriptType (kind text : GoStr) : GoStr :=
  if containsL text (gs "z.string()") then
    if containsL text (gs ".email()") then gs "string().email"
    else if containsL text (gs ".nullable()") then gs "string().nullable"
    else if containsL text (gs ".optional()") then gs "string().optional"
    else gs "string"
  else if containsL text (gs "z.number()") then
    if containsL text (gs ".nullable()") then gs "number().nullable"
    else if containsL text (gs ".optional()") then gs "number().optional"
    else gs "number"
  else if containsL text (gs "z.boolean()") then
    if containsL text (gs ".nullable()") then gs "boolean().nullable"
    else if containsL text (gs ".optional()") then gs "boolean().optional"
    else gs "boolean"
  else if containsL text (gs "z.date()") then gs "date"
  else if containsL text (gs "z.array(") then
    if containsL text (gs "z.string()") then gs "array(string())"
    else if containsL text (gs "z.number()") then gs "array(number())"
    else gs "array"
  else if kind = gs "identifier" then gs "object"
  else gs "unknown"

/-- C4 (code-bug evidence): `z.array(z.string())` is classified as the
element's base token `"string"`, not as an array-of-X token, because the
base-builder substring checks run before the `z.array(` check; the
`"array(string())"` and `"array(number())"` branches are unreachable for
every input. -/
theorem C4_array_of_string_classified_as_string :
    extractTypeScriptType (gs "call_expression") (gs "z.array(z.string())") = gs "string" ∧
    (∀ kind text : GoStr, extractTypeScriptType kind text ≠ gs "array(string())") ∧
    (∀ kind text : GoStr, extractTypeScriptType kind text ≠ gs "array(number())") := by
  refine ⟨by decide, ?_, ?_⟩
  · intro kind text
    unfold extractTypeScriptType
    split_ifs <;> simp_all <;> decide
  · intro kind text
    unfold extractTypeScriptType
    split_ifs <;> simp_all <;> decide

/-! ## `ParseFilesWithGrammars` (scan control flow)

The filesystem walk is modelled by the list of walked files
`(path, content)`; the tree-sitter grammar engine — an external
collaborator — is the parameter `parse path blockType code`.  The
per-grammar result maps are initialized from the loaded grammar names,
and a block is parsed only when a grammar for its dialect is loaded. -/

/-- The per-dialect collections built by the scan. -/
abbrev GrammarResults := List (GoStr × List (GoStr × Model))

/-- Go map insertion `models[k] = v` (replace in place, else append). -/
def insertA (m : List (GoStr × Model)) (k : GoStr) (v : Model) : List (GoStr × Model) :=
  if (lookupL m k).isSome then m.map (fun p => if p.1 = k then (k, v) else p)
  else m ++ [(k, v)]

/-- Replacing the inner map of one dialect inside the outer results map. -/
def setOuter (results : GrammarResults) (ty : GoStr) (models : List (GoStr × Model)) :
    GrammarResults :=
  results.map fun p => if p.1 = ty then (ty, models) else p

/-- The error message `fmt.Errorf("%s: failed to parse %s block '%s': %w", ...)`. -/
def parseFailMsg (path : GoStr) (b : agreeBlock) (e : GoStr) : GoStr :=
  path ++ gs ": failed to parse " ++ b.typ ++ gs " block '" ++ b.nickname ++ gs "': " ++ e

/-- Handling of one agree block inside the walk callback: skip it when no
grammar covers its dialect, otherwise parse and store, aborting with the
wrapped error on parse failure. -/
def processBlock (parse : GoStr → GoStr → GoStr → Except GoStr Model) (path : GoStr)
    (results : GrammarResults) (b : agreeBlock) : Except GoStr GrammarResults :=
  match lookupL results b.typ with
  | none => .ok results
  | some models =>
    match parse path b.typ b.code with
    | .error e => .error (parseFailMsg path b e)
    | .ok m => .ok (setOuter results b.typ (insertA models b.nickname m))

/-- All blocks of one file, in order, short-circuiting on error. -/
def processBlocks (parse : GoStr → GoStr → GoStr → Except GoStr Model) (path : GoStr)
    (results : GrammarResults) : List agreeBlock → Except GoStr GrammarResults
  | [] => .ok results
  | b :: t =>
    match processBlock parse path results b with
    | .error e => .error e
    | .ok r => processBlocks parse path r t

/-- The walk callback for one file: extract its agree blocks, then
process them. -/
def processFile (parse : GoStr → GoStr → GoStr → Except GoStr Model)
    (results : GrammarResults) (f : GoStr × GoStr) : Except GoStr GrammarResults :=
  processBlocks parse f.1 results (extractAgreeBlocks f.2)

/-- The walk over all files, short-circuiting on error. -/
def walkFiles (parse : GoStr → GoStr → GoStr → Except GoStr Model) :
    List (GoStr × GoStr) → GrammarResults → Except GoStr GrammarResults
  | [], results => .ok results
  | f :: t, results =>
    match processFile parse results f with
    | .error e => .error e
    | .ok r => walkFiles parse t r

/-- `ParseFilesWithGrammars`: result maps are initialized empty for every
loaded grammar, then every walked file is scanned. -/
def ParseFilesWithGrammars (grammarNames : List GoStr)
    (parse : GoStr → GoStr → GoStr → Except GoStr Model)
    (files : List (GoStr × GoStr)) : Except GoStr GrammarResults :=
  walkFiles parse files (grammarNames.map fun g => (g, []))

/-- Lookup success in the outer map is untouched by `setOuter`. -/
theorem lookup_setOuter_isSome (results : GrammarResults) (ty : GoStr)
    (models : List (GoStr × Model)) (k : GoStr) :
    (lookupL (setOuter results ty models) k).isSome = (lookupL results k).isSome := by
  induction results with
  | nil => rfl
  | cons p t ih =>
    rcases p with ⟨k', v'⟩
    have hcons : setOuter ((k', v') :: t) ty models
        = (if k' = ty then (ty, models) else (k', v')) :: setOuter t ty models := rfl
    rw [hcons]
    by_cases h1 : k' = ty
    · rw [if_pos h1]
      subst h1
      by_cases h2 : k' = k
      · subst h2
        simp [lookupL]
      · simp [lookupL, h2, ih]
    · rw [if_neg h1]
      by_cases h2 : k' = k
      · subst h2
        simp [lookupL]
      · simp [lookupL, h2, ih]

/-- A successful `processBlock` preserves which dialects are present. -/
theorem processBlock_preserves (parse : GoStr → GoStr → GoStr → Except GoStr Model)
    (path : GoStr) (results r' : GrammarResults) (b : agreeBlock)
    (h : processBlock parse path results b = .ok r') (k : GoStr) :
    (lookupL r' k).isSome = (lookupL results k).isSome := by
  unfold processBlock at h
  rcases hl : lookupL results b.typ with _ | models
  · rw [hl] at h
    cases h
    rfl
  · rw [hl] at h
    rcases hp : parse path b.typ b.code with e | m
    · rw [hp] at h; cases h
    · rw [hp] at h
      cases h
      exact lookup_setOuter_isSome results b.typ _ k

/-- `processBlocks` either succeeds or surfaces a wrapped parse-failure
error naming the file path and the block's dialect and nickname. -/
theorem processBlocks_shape (parse : GoStr → GoStr → GoStr → Except GoStr Model)
    (path : GoStr) (blocks : List agreeBlock) (results : GrammarResults) :
    (∃ r, processBlocks parse path results blocks = .ok r) ∨
    (∃ b e, processBlocks parse path results blocks = .error (parseFailMsg path b e)) := by
  induction blocks generalizing results with
  | nil => exact Or.inl ⟨results, rfl⟩
  | cons b t ih =>
    unfold processBlocks
    rcases hpb : processBlock parse path results b with e | r
    · right
      unfold processBlock at hpb
      rcases hl : lookupL results b.typ with _ | models
      · rw [hl] at hpb; cases hpb
      · rw [hl] at hpb
        rcases hp : parse path b.typ b.code with e0 | m
        · rw [hp] at hpb
          cases hpb
          exact ⟨b, e0, rfl⟩
        · rw [hp] at hpb; cases hpb
    · exact ih r

/-- If some block of the list is covered by a loaded grammar and fails to
parse, `processBlocks` cannot succeed. -/
theorem processBlocks_not_ok (parse : GoStr → GoStr → GoStr → Except GoStr Model)
    (path : GoStr) (blocks : List agreeBlock) (results : GrammarResults)
    (grammarNames : List GoStr)
    (hinv : ∀ g ∈ grammarNames, (lookupL results g).isSome = true)
    (b : agreeBlock) (hb : b ∈ blocks) (hcov : b.typ ∈ grammarNames)
    (e0 : GoStr) (hfail : parse path b.typ b.code = .error e0) :
    ∀ r, processBlocks parse path results blocks ≠ .ok r := by
  induction blocks generalizing results with
  | nil => cases hb
  | cons x t ih =>
    intro r hok
    unfold processBlocks at hok
    rcases hpx : processBlock parse path results x with e | r1
    · rw [hpx] at hok; cases hok
    · rw [hpx] at hok
      rw [List.mem_cons] at hb
      rcases hb with hb | hb
      · subst hb
        unfold processBlock at hpx
        have hsome := hinv b.typ hcov
        rcases hl : lookupL results b.typ with _ | models
        · rw [hl] at hsome; cases hsome
        · rw [hl, hfail] at hpx
          cases hpx
      · have hinv1 : ∀ g ∈ grammarNames, (lookupL r1 g).isSome = true := by
          intro g hg
          rw [processBlock_preserves parse path results r1 x hpx g]
          exact hinv g hg
        exact ih r1 hinv1 hb r hok

/-- A successful `processBlocks` run preserves which dialects are present. -/
theorem processBlocks_preserves (parse : GoStr → GoStr → GoStr → Except GoStr Model)
    (path : GoStr) (blocks : List agreeBlock) (results r' : GrammarResults)
    (h : processBlocks parse path results blocks = .ok r') (k : GoStr) :
    (lookupL r' k).isSome = (lookupL results k).isSome := by
  induction blocks generalizing results with
  | nil =>
    unfold processBlocks at h
    cases h
    rfl
  | cons b t ih =>
    unfold processBlocks at h
    rcases hpb : processBlock parse path results b with e | r1
    · rw [hpb] at h; cases h
    · rw [hpb] at h
      rw [ih r1 h, processBlock_preserves parse path results r1 b hpb]

/-- The whole walk either succeeds or surfaces a wrapped parse-failure
error naming some file path, dialect and nickname. -/
theorem walkFiles_shape (parse : GoStr → GoStr → GoStr → Except GoStr Model)
    (files : List (GoStr × GoStr)) (results : GrammarResults) :
    (∃ r, walkFiles parse files results = .ok r) ∨
    (∃ p b e, walkFiles parse files results = .error (parseFailMsg p b e)) := by
  induction files generalizing results with
  | nil => exact Or.inl ⟨results, rfl⟩
  | cons f t ih =>
    unfold walkFiles
    rcases hf : processFile parse results f with e | r
    · right
      unfold processFile at hf
      rcases processBlocks_shape parse f.1 (extractAgreeBlocks f.2) results with ⟨r, hr⟩ | ⟨b, e0, hb⟩
      · rw [hr] at hf; cases hf
      · rw [hb] at hf
        cases hf
        exact ⟨f.1, b, e0, rfl⟩
    · exact ih r

/-- If some walked file holds a covered failing block, the walk cannot
succeed. -/
theorem walkFiles_not_ok (parse : GoStr → GoStr → GoStr → Except GoStr Model)
    (files : List (GoStr × GoStr)) (results : GrammarResults)
    (grammarNames : List GoStr)
    (hinv : ∀ g ∈ grammarNames, (lookupL results g).isSome = true)
    (path content : GoStr) (hf : (path, content) ∈ files)
    (b : agreeBlock) (hb : b ∈ extractAgreeBlocks content)
    (hcov : b.typ ∈ grammarNames)
    (e0 : GoStr) (hfail : parse path b.typ b.code = .error e0) :
    ∀ r, walkFiles parse files results ≠ .ok r := by
  induction files generalizing results with
  | nil => cases hf
  | cons f t ih =>
    intro r hok
    unfold walkFiles at hok
    rcases hpf : processFile parse results f with e | r1
    · rw [hpf] at hok; cases hok
    · rw [hpf] at hok
      rw [List.mem_cons] at hf
      rcases hf with hf | hf
      · subst hf
        unfold processFile at hpf
        exact processBlocks_not_ok parse path (extractAgreeBlocks content) results
          grammarNames hinv b hb hcov e0 hfail r1 hpf
      · have hinv1 : ∀ g ∈ grammarNames, (lookupL r1 g).isSome = true := by
          intro g hg
          unfold processFile at hpf
          rw [processBlocks_preserves parse f.1 (extractAgreeBlocks f.2) results r1 hpf g]
          exact hinv g hg
        exact ih r1 hinv1 hf r hok

/-- The initial per-grammar result maps contain every loaded grammar. -/
theorem lookup_init_isSome (grammarNames : List GoStr) (g : GoStr)
    (hg : g ∈ grammarNames) :
    (lookupL (grammarNames.map fun n => (n, ([] : List (GoStr × Model)))) g).isSome = true := by
  induction grammarNames with
  | nil => cases hg
  | cons n t ih =>
    rw [List.mem_cons] at hg
    rcases hg with hg | hg
    · subst hg
      simp [lookupL]
    · simp only [List.map_cons, lookupL]
      by_cases h : n = g
      · simp [h]
      · rw [if_neg h]
        exact ih hg

end Agree

namespace Agree

/-- C5: if any walked file contains an agree block whose dialect has a
loaded grammar and whose embedded code fails to parse (in particular the
no-definition-found failure), the whole scan aborts: the scanning
function returns an error — a wrapped message naming a file path, its
dialect and its nickname — and no model collection, instead of skipping
the failed region and continuing. -/
theorem C5_failed_region_aborts_scan (grammarNames : List GoStr)
    (parse : GoStr → GoStr → GoStr → Except GoStr Model)
    (files : List (GoStr × GoStr)) (path content : GoStr)
    (hf : (path, content) ∈ files)
    (b : agreeBlock) (hb : b ∈ extractAgreeBlocks content)
    (hcov : b.typ ∈ grammarNames)
    (e0 : GoStr) (hfail : parse path b.typ b.code = .error e0) :
    ∃ p blk e, ParseFilesWithGrammars grammarNames parse files
        = .error (parseFailMsg p blk e) := by
  unfold ParseFilesWithGrammars
  rcases walkFiles_shape parse files (grammarNames.map fun g => (g, [])) with ⟨r, hr⟩ | hsh
  · exact absurd hr
      (walkFiles_not_ok parse files _ grammarNames
        (fun g hg => lookup_init_isSome grammarNames g hg)
        path content hf b hb hcov e0 hfail r)
  · exact hsh

/-- C5 witness: one file with one pydantic block whose code has no
recognizable model definition; the scan returns the wrapped error. -/
theorem C5_witness :
    ((gs "a.py", gs "# [agree:user:pydantic]\nx = 1\n# [agree:end]\n")
        ∈ [(gs "a.py", gs "# [agree:user:pydantic]\nx = 1\n# [agree:end]\n")]) ∧
    ((⟨gs "user", gs "pydantic", gs "x = 1\n"⟩ : agreeBlock)
        ∈ extractAgreeBlocks (gs "# [agree:user:pydantic]\nx = 1\n# [agree:end]\n")) ∧
    ((gs "pydantic") ∈ [gs "pydantic"]) ∧
    (∃ p blk e,
      ParseFilesWithGrammars [gs "pydantic"]
          (fun _ _ _ => .error (gs "no class definition found"))
          [(gs "a.py", gs "# [agree:user:pydantic]\nx = 1\n# [agree:end]\n")]
        = .error (parseFailMsg p blk e)) :=
  ⟨by decide, by decide, by decide,
    C5_failed_region_aborts_scan [gs "pydantic"]
      (fun _ _ _ => .error (gs "no class definition found"))
      [(gs "a.py", gs "# [agree:user:pydantic]\nx = 1\n# [agree:end]\n")]
      (gs "a.py") (gs "# [agree:user:pydantic]\nx = 1\n# [agree:end]\n")
      (by decide) ⟨gs "user", gs "pydantic", gs "x = 1\n"⟩ (by decide)
      (by decide) (gs "no class definition found") rfl⟩

/-! ## Idempotence of `GetCanonicalType` (C10): character-level facts -/

/-- The lowercase output alphabet of `lowerChar`. -/
def lcAlphabet : GoStr := gs "abcdefghijklmnopqrstuvwxyz"

/-- `lowerChar` either fixes its argument or produces a lowercase letter. -/
theorem lowerChar_cases (c : Char) :
    lowerChar c = c ∨ lowerChar c ∈ lcAlphabet := by
  by_cases h1 : c = 'A'
  · subst h1; right; decide
  by_cases h2 : c = 'B'
  · subst h2; right; decide
  by_cases h3 : c = 'C'
  · subst h3; right; decide
  by_cases h4 : c = 'D'
  · subst h4; right; decide
  by_cases h5 : c = 'E'
  · subst h5; right; decide
  by_cases h6 : c = 'F'
  · subst h6; right; decide
  by_cases h7 : c = 'G'
  · subst h7; right; decide
  by_cases h8 : c = 'H'
  · subst h8; right; decide
  by_cases h9 : c = 'I'
  · subst h9; right; decide
  by_cases h10 : c = 'J'
  · subst h10; right; decide
  by_cases h11 : c = 'K'
  · subst h11; right; decide
  by_cases h12 : c = 'L'
  · subst h12; right; decide
  by_cases h13 : c = 'M'
  · subst h13; right; decide
  by_cases h14 : c = 'N'
  · subst h14; right; decide
  by_cases h15 : c = 'O'
  · subst h15; right; decide
  by_cases h16 : c = 'P'
  · subst h16; right; decide
  by_cases h17 : c = 'Q'
  · subst h17; right; decide
  by_cases h18 : c = 'R'
  · subst h18; right; decide
  by_cases h19 : c = 'S'
  · subst h19; right; decide
  by_cases h20 : c = 'T'
  · subst h20; right; decide
  by_cases h21 : c = 'U'
  · subst h21; right; decide
  by_cases h22 : c = 'V'
  · subst h22; right; decide
  by_cases h23 : c = 'W'
  · subst h23; right; decide
  by_cases h24 : c = 'X'
  · subst h24; right; decide
  by_cases h25 : c = 'Y'
  · subst h25; right; decide
  by_cases h26 : c = 'Z'
  · subst h26; right; decide
  left
  unfold lowerChar
  rw [if_neg h1, if_neg h2, if_neg h3, if_neg h4, if_neg h5, if_neg h6,
    if_neg h7, if_neg h8, if_neg h9, if_neg h10, if_neg h11, if_neg h12,
    if_neg h13, if_neg h14, if_neg h15, if_neg h16, if_neg h17, if_neg h18,
    if_neg h19, if_neg h20, if_neg h21, if_neg h22, if_neg h23, if_neg h24,
    if_neg h25, if_neg h26]

/-- Lowercase letters are fixed by `lowerChar`. -/
theorem lowerChar_fix_alphabet : ∀ d ∈ lcAlphabet, lowerChar d = d := by decide

/-- `lowerChar` is idempotent. -/
theorem lowerChar_idem (c : Char) : lowerChar (lowerChar c) = lowerChar c := by
  rcases lowerChar_cases c with h | h
  · rw [h]
    exact h
  · exact lowerChar_fix_alphabet _ h

/-- Lowercase letters and their uppercase pre-images are not whitespace. -/
theorem isSpaceChar_lowerChar (c : Char) :
    isSpaceChar (lowerChar c) = isSpaceChar c := by
  rcases lowerChar_cases c with h | h
  · rw [h]
  · have hlc : isSpaceChar (lowerChar c) = false := by
      have : ∀ d ∈ lcAlphabet, isSpaceChar d = false := by decide
      exact this _ h
    have hup : isSpaceChar c = false := by
      by_contra hc
      have hc' : isSpaceChar c = true := by
        cases hcc : isSpaceChar c
        · exact absurd hcc hc
        · rfl
      have : lowerChar c = c := by
        have hsp : ∀ d, isSpaceChar d = true → lowerChar d = d := by
          intro d hd
          simp only [isSpaceChar, Bool.or_eq_true, decide_eq_true_eq] at hd
          rcases hd with ((((h | h) | h) | h) | h) | h <;> subst h <;> decide
        exact hsp c hc'
      rw [this] at hlc
      rw [hlc] at hc'
      cases hc'
    rw [hlc, hup]

end Agree

namespace Agree

/-- Every character of a lowercased string is fixed by `lowerChar`. -/
theorem allLower_toLowerL (s : GoStr) : ∀ c ∈ toLowerL s, lowerChar c = c := by
  intro c hc
  rcases List.mem_map.mp hc with ⟨a, _, rfl⟩
  exact lowerChar_idem a

/-- A string all of whose characters are fixed by `lowerChar` is fixed by
`toLowerL`. -/
theorem toLowerL_eq_self (s : GoStr) (h : ∀ c ∈ s, lowerChar c = c) :
    toLowerL s = s := by
  induction s with
  | nil => rfl
  | cons a t ih =>
    show lowerChar a :: toLowerL t = a :: t
    rw [h a (by simp), ih fun c hc => h c (by simp [hc])]

/-- A head character surviving `dropWhile` falsifies the predicate. -/
theorem dropWhile_head_false (p : Char → Bool) (l : GoStr) :
    ∀ c, (l.dropWhile p).head? = some c → p c = false := by
  induction l with
  | nil => intro c hc; cases hc
  | cons a t ih =>
    intro c hc
    rw [List.dropWhile_cons] at hc
    by_cases hp : p a
    · rw [if_pos hp] at hc
      exact ih c hc
    · rw [if_neg hp] at hc
      cases hc
      exact Bool.of_not_eq_true hp

/-- `dropWhile` fixes a string whose head falsifies the predicate. -/
theorem dropWhile_eq_self_of_head (p : Char → Bool) (l : GoStr)
    (h : ∀ c, l.head? = some c → p c = false) : l.dropWhile p = l := by
  cases l with
  | nil => rfl
  | cons a t =>
    rw [List.dropWhile_cons, if_neg]
    rw [h a rfl]
    simp

/-- A `dropWhile` result of full length is the whole string. -/
theorem dropWhile_eq_self_of_length (p : Char → Bool) (l : GoStr)
    (h : l.length ≤ (l.dropWhile p).length) : l.dropWhile p = l :=
  (List.dropWhile_sublist p).eq_of_length_le h

/-- If `dropWhile` fixes a string, its head falsifies the predicate. -/
theorem head_false_of_dropWhile_eq_self (p : Char → Bool) (l : GoStr)
    (h : l.dropWhile p = l) : ∀ c, l.head? = some c → p c = false := by
  intro c hc
  exact dropWhile_head_false p l c (by rw [h]; exact hc)

/-- `dropWhile` keeps a suffix of its input. -/
theorem dropWhile_suffix (p : Char → Bool) (l : GoStr) : l.dropWhile p <:+ l := by
  induction l with
  | nil => exact List.suffix_refl _
  | cons a t ih =>
    rw [List.dropWhile_cons]
    by_cases hp : p a
    · rw [if_pos hp]
      exact ih.trans (List.suffix_cons a t)
    · rw [if_neg hp]

/-- `dropTrailingSpace` is a prefix of its input. -/
theorem dropTrailingSpace_prefixOf (l : GoStr) : dropTrailingSpace l <+: l := by
  have h : (l.reverse.dropWhile isSpaceChar).reverse <+: l.reverse.reverse :=
    List.reverse_prefix.mpr (dropWhile_suffix isSpaceChar l.reverse)
  rw [List.reverse_reverse] at h
  exact h

/-- A nonempty prefix shares its head with the whole string. -/
theorem IsPrefix_head?_eq (x y : GoStr) (h : x <+: y) (c : Char)
    (hc : x.head? = some c) : y.head? = some c := by
  rcases h with ⟨r, rfl⟩
  cases x with
  | nil => cases hc
  | cons a t => exact hc

/-- The head left by `trimSpaceL` is not whitespace. -/
theorem head?_trimSpaceL (s : GoStr) :
    ∀ c, (trimSpaceL s).head? = some c → isSpaceChar c = false := by
  intro c hc
  unfold trimSpaceL at hc
  have hy : (s.dropWhile isSpaceChar).head? = some c :=
    IsPrefix_head?_eq _ _ (dropTrailingSpace_prefixOf (s.dropWhile isSpaceChar)) c hc
  exact dropWhile_head_false isSpaceChar s c hy

/-- The last character left by `trimSpaceL` is not whitespace. -/
theorem getLast?_trimSpaceL (s : GoStr) :
    ∀ c, (trimSpaceL s).getLast? = some c → isSpaceChar c = false := by
  intro c hc
  unfold trimSpaceL dropTrailingSpace at hc
  rw [List.getLast?_reverse] at hc
  exact dropWhile_head_false isSpaceChar _ c hc

/-- `trimSpaceL` fixes a string whose two ends are not whitespace. -/
theorem trimSpaceL_eq_self (s : GoStr)
    (h1 : ∀ c, s.head? = some c → isSpaceChar c = false)
    (h2 : ∀ c, s.getLast? = some c → isSpaceChar c = false) :
    trimSpaceL s = s := by
  unfold trimSpaceL
  rw [dropWhile_eq_self_of_head isSpaceChar s h1]
  unfold dropTrailingSpace
  rw [dropWhile_eq_self_of_head isSpaceChar s.reverse
      (fun c hc => h2 c (by rw [← List.head?_reverse]; exact hc)),
    List.reverse_reverse]

/-- If `trimSpaceL` fixes a string, both its ends are not whitespace. -/
theorem trim_eq_self_ends (u : GoStr) (h : trimSpaceL u = u) :
    (∀ c, u.head? = some c → isSpaceChar c = false) ∧
    (∀ c, u.getLast? = some c → isSpaceChar c = false) := by
  have hyu : u.dropWhile isSpaceChar = u := by
    apply dropWhile_eq_self_of_length
    have h1 : (trimSpaceL u).length ≤ (u.dropWhile isSpaceChar).length := by
      unfold trimSpaceL dropTrailingSpace
      rw [List.length_reverse]
      calc ((u.dropWhile isSpaceChar).reverse.dropWhile isSpaceChar).length
          ≤ (u.dropWhile isSpaceChar).reverse.length :=
            (List.dropWhile_sublist isSpaceChar).length_le
        _ = (u.dropWhile isSpaceChar).length :=
            List.length_reverse _
    rw [h] at h1
    exact h1
  have hdt : dropTrailingSpace u = u := by
    unfold trimSpaceL at h
    rw [hyu] at h
    exact h
  have hrev : u.reverse.dropWhile isSpaceChar = u.reverse := by
    unfold dropTrailingSpace at hdt
    have h3 := congrArg List.reverse hdt
    rw [List.reverse_reverse] at h3
    exact h3
  exact ⟨head_false_of_dropWhile_eq_self _ _ hyu,
    fun c hc => head_false_of_dropWhile_eq_self _ _ hrev c
      (by rw [List.head?_reverse]; exact hc)⟩

/-- `trimSpaceL` keeps only characters of its input. -/
theorem trimSpaceL_subset (s : GoStr) : trimSpaceL s ⊆ s := by
  intro c hc
  have h1 : c ∈ s.dropWhile isSpaceChar :=
    (dropTrailingSpace_prefixOf (s.dropWhile isSpaceChar)).subset hc
  exact (List.dropWhile_sublist isSpaceChar).subset h1

/-- `trimSuffixL` keeps only characters of its input. -/
theorem trimSuffixL_subset (s suf : GoStr) : trimSuffixL s suf ⊆ s := by
  unfold trimSuffixL
  by_cases h : hasSuffixL s suf = true
  · rw [if_pos h]
    exact List.take_subset _ s
  · rw [if_neg h]
    exact fun c hc => hc

/-- `sliceL` keeps only characters of its input. -/
theorem sliceL_subset (s : GoStr) (a b : Nat) : sliceL s a b ⊆ s :=
  fun _ hc => List.take_subset b s (List.drop_subset a (s.take b) hc)

/-- The head of a nonempty `take` is the head of the string. -/
theorem head?_take (l : GoStr) (n : Nat) (c : Char)
    (hc : (l.take n).head? = some c) : l.head? = some c := by
  cases l with
  | nil => rw [List.take_nil] at hc; cases hc
  | cons a t =>
    cases n with
    | zero => cases hc
    | succ m => exact hc

/-- Shape of a successful `optionalBracket`: a trimmed slice, nullable. -/
theorem optionalBracket_shape (t : GoStr) (r : GoStr × Bool)
    (h : optionalBracket t = some r) :
    ∃ a b, r = (trimSpaceL (sliceL t a b), true) := by
  unfold optionalBracket at h
  by_cases hc : containsL t (gs "optional[") = true
  · rw [if_pos hc] at h
    rcases hst : firstIndexL t (gs "[") with _ | st <;> rw [hst] at h
    · cases h
    · rcases hen : lastIndexL t (gs "]") with _ | en <;> rw [hen] at h
      · cases h
      · have h' : (if st < en then some (trimSpaceL (sliceL t (st + 1) en), true)
            else none) = some r := h
        by_cases hlt : st < en
        · rw [if_pos hlt] at h'
          exact ⟨st + 1, en, (Option.some.inj h').symm⟩
        · rw [if_neg hlt] at h'
          cases h'
  · rw [if_neg hc] at h
    cases h

/-- Shape of a successful `builderNullable`: one of the three fixed
lowercase base names, nullable. -/
theorem builderNullable_shape (t marker : GoStr) (r : GoStr × Bool)
    (h : builderNullable t marker = some r) :
    r = (gs "string", true) ∨ r = (gs "number", true) ∨ r = (gs "boolean", true) := by
  unfold builderNullable at h
  by_cases h0 : containsL t marker = true
  · rw [if_pos h0] at h
    by_cases h1 : containsL t (gs "string") = true
    · rw [if_pos h1] at h
      exact Or.inl (Option.some.inj h).symm
    · rw [if_neg h1] at h
      by_cases h2 : containsL t (gs "number") = true
      · rw [if_pos h2] at h
        exact Or.inr (Or.inl (Option.some.inj h).symm)
      · rw [if_neg h2] at h
        by_cases h3 : containsL t (gs "boolean") = true
        · rw [if_pos h3] at h
          exact Or.inr (Or.inr (Option.some.inj h).symm)
        · rw [if_neg h3] at h
          cases h
  · rw [if_neg h0] at h
    cases h

/-- Case analysis of `extractNullableType` on an already-trimmed input:
either nothing matched (not nullable, base unchanged), or the result is
nullable with a base that is a prefix-take of the input, a trimmed
sub-string of the input, or one of three fixed lowercase names. -/
theorem extractNullableType_shape (u : GoStr) (htrim : trimSpaceL u = u) :
    extractNullableType u = (u, false) ∨
    ((extractNullableType u).2 = true ∧
      ((extractNullableType u).1 = u.take (u.length - 1) ∨
       (∃ y, y ⊆ u ∧ (extractNullableType u).1 = trimSpaceL y) ∨
       (extractNullableType u).1 ∈ [gs "string", gs "number", gs "boolean"])) := by
  unfold extractNullableType
  rw [htrim]
  unfold extractNullableCore
  by_cases h1 : hasSuffixL u (gs "?") = true
  · rw [if_pos h1]
    right
    refine ⟨rfl, Or.inl ?_⟩
    unfold trimSuffixL
    rw [if_pos h1]
    rfl
  · rw [if_neg h1]
    by_cases h2 : hasSuffixL u (gs "| none") = true
    · rw [if_pos h2]
      exact Or.inr ⟨rfl, Or.inr (Or.inl ⟨trimSuffixL u (gs "| none"),
        trimSuffixL_subset u _, rfl⟩)⟩
    · rw [if_neg h2]
      by_cases h3 : hasSuffixL u (gs "| null") = true
      · rw [if_pos h3]
        exact Or.inr ⟨rfl, Or.inr (Or.inl ⟨trimSuffixL u (gs "| null"),
          trimSuffixL_subset u _, rfl⟩)⟩
      · rw [if_neg h3]
        rcases hob : optionalBracket u with _ | r0
        · rcases hbn : builderNullable u (gs ".nullable") with _ | r1
          · rcases hbo : builderNullable u (gs ".optional") with _ | r2
            · exact Or.inl rfl
            · right
              rcases builderNullable_shape u _ r2 hbo with h | h | h
              · rw [h]
                exact ⟨rfl, Or.inr (Or.inr
                  (show (gs "string" : GoStr) ∈ [gs "string", gs "number", gs "boolean"]
                    by decide))⟩
              · rw [h]
                exact ⟨rfl, Or.inr (Or.inr
                  (show (gs "number" : GoStr) ∈ [gs "string", gs "number", gs "boolean"]
                    by decide))⟩
              · rw [h]
                exact ⟨rfl, Or.inr (Or.inr
                  (show (gs "boolean" : GoStr) ∈ [gs "string", gs "number", gs "boolean"]
                    by decide))⟩
          · right
            rcases builderNullable_shape u _ r1 hbn with h | h | h
            · rw [h]
              exact ⟨rfl, Or.inr (Or.inr
                (show (gs "string" : GoStr) ∈ [gs "string", gs "number", gs "boolean"]
                  by decide))⟩
            · rw [h]
              exact ⟨rfl, Or.inr (Or.inr
                (show (gs "number" : GoStr) ∈ [gs "string", gs "number", gs "boolean"]
                  by decide))⟩
            · rw [h]
              exact ⟨rfl, Or.inr (Or.inr
                (show (gs "boolean" : GoStr) ∈ [gs "string", gs "number", gs "boolean"]
                  by decide))⟩
        · right
          rcases optionalBracket_shape u r0 hob with ⟨a, b, hr⟩
          rw [hr]
          exact ⟨rfl, Or.inr (Or.inl ⟨sliceL u a b, sliceL_subset u a b, rfl⟩)⟩

/-- The base type returned by `extractNullableType` stays lowercased. -/
theorem extractNullable_lower (u : GoStr) (hlow : ∀ c ∈ u, lowerChar c = c)
    (htrim : trimSpaceL u = u) :
    ∀ c ∈ (extractNullableType u).1, lowerChar c = c := by
  rcases extractNullableType_shape u htrim with h | ⟨_, h | h | h⟩
  · rw [h]
    exact hlow
  · rw [h]
    exact fun c hc => hlow c (List.take_subset _ u hc)
  · rcases h with ⟨y, hy, h⟩
    rw [h]
    exact fun c hc => hlow c (hy (trimSpaceL_subset y hc))
  · have hfix : ∀ x ∈ [gs "string", gs "number", gs "boolean"],
        ∀ c ∈ x, lowerChar c = c := by decide
    exact hfix _ h

/-- The base type returned by `extractNullableType` does not start with
whitespace. -/
theorem extractNullable_head (u : GoStr) (htrim : trimSpaceL u = u) :
    ∀ c, (extractNullableType u).1.head? = some c → isSpaceChar c = false := by
  rcases extractNullableType_shape u htrim with h | ⟨_, h | h | h⟩
  · rw [h]
    exact (trim_eq_self_ends u htrim).1
  · rw [h]
    exact fun c hc => (trim_eq_self_ends u htrim).1 c (head?_take u _ c hc)
  · rcases h with ⟨y, _, h⟩
    rw [h]
    exact head?_trimSpaceL y
  · rcases List.mem_cons.mp h with h' | h'
    · rw [h']
      intro c hc
      cases hc
      decide
    rcases List.mem_cons.mp h' with h'' | h''
    · rw [h'']
      intro c hc
      cases hc
      decide
    rcases List.mem_cons.mp h'' with h3 | h3
    · rw [h3]
      intro c hc
      cases hc
      decide
    · cases h3

/-- When nothing matched, `extractNullableType` returns its input. -/
theorem extractNullable_false (u : GoStr) (htrim : trimSpaceL u = u)
    (hf : (extractNullableType u).2 = false) : (extractNullableType u).1 = u := by
  rcases extractNullableType_shape u htrim with h | ⟨hflag, _⟩
  · rw [h]
  · rw [hflag] at hf
    cases hf

/-- The raw spellings rewritten by the canonical switch. -/
def canonSources : List GoStr :=
  [gs "int", gs "integer", gs "str", gs "bool", gs "emailstr",
   gs "string().email", gs "datetime", gs "timestamp", gs "dict", gs "list"]

/-- The canonical tokens produced by the switch. -/
def canonTargets : List GoStr :=
  [gs "integer", gs "string", gs "boolean", gs "email", gs "date",
   gs "object", gs "array"]

/-- `canonSwitch` fixes everything except the listed raw spellings. -/
theorem canonSwitch_cases (b : GoStr) :
    canonSwitch b = b ∨ b ∈ canonSources := by
  unfold canonSwitch
  split_ifs with h1 h2 h3 h4 h5 h6 h7
  · rcases h1 with h | h <;> subst h <;> right <;> decide
  · subst h2; right; decide
  · subst h3; right; decide
  · rcases h4 with h | h <;> subst h <;> right <;> decide
  · rcases h5 with h | h <;> subst h <;> right <;> decide
  · subst h6; right; decide
  · subst h7; right; decide
  · left; rfl

/-- The switch maps each raw spelling to a canonical token. -/
theorem canonSwitch_mem_src : ∀ b ∈ canonSources, canonSwitch b ∈ canonTargets := by
  decide

/-- The switch fixes every canonical token. -/
theorem canonSwitch_fix_targets : ∀ b ∈ canonTargets, canonSwitch b = b := by
  decide

/-- The canonical switch is idempotent. -/
theorem canonSwitch_idem (b : GoStr) :
    canonSwitch (canonSwitch b) = canonSwitch b := by
  rcases canonSwitch_cases b with h | h
  · rw [h]
    exact h
  · exact canonSwitch_fix_targets _ (canonSwitch_mem_src b h)

/-- Canonical tokens are lowercase. -/
theorem canonTargets_lower : ∀ x ∈ canonTargets, ∀ c ∈ x, lowerChar c = c := by
  decide

/-- Canonical tokens do not start with whitespace (decidable form). -/
theorem canonTargets_head_all :
    ∀ x ∈ canonTargets, (x.head?.all fun c => !isSpaceChar c) = true := by
  decide

/-- Converts the decidable head form into the `head? = some` form. -/
theorem head_not_space_of_all (x : GoStr)
    (h : (x.head?.all fun c => !isSpaceChar c) = true) :
    ∀ c, x.head? = some c → isSpaceChar c = false := by
  intro c hc
  rw [hc] at h
  simpa using h

/-- `canonSwitch` preserves loweredness and a non-whitespace head. -/
theorem canonSwitch_preserves (B : GoStr) (hlow : ∀ c ∈ B, lowerChar c = c)
    (hhead : ∀ c, B.head? = some c → isSpaceChar c = false) :
    (∀ c ∈ canonSwitch B, lowerChar c = c) ∧
    (∀ c, (canonSwitch B).head? = some c → isSpaceChar c = false) := by
  rcases canonSwitch_cases B with h | h
  · rw [h]
    exact ⟨hlow, hhead⟩
  · have hm := canonSwitch_mem_src B h
    exact ⟨canonTargets_lower _ hm,
      head_not_space_of_all _ (canonTargets_head_all _ hm)⟩

/-- Appending `"?"` yields a string with that suffix. -/
theorem hasSuffixL_concat_q (x : GoStr) :
    hasSuffixL (x ++ gs "?") (gs "?") = true := by
  simp only [hasSuffixL, Bool.and_eq_true, decide_eq_true_eq]
  have h1 : (gs "?").length = 1 := rfl
  constructor
  · rw [h1, List.length_append, h1]
    omega
  · rw [h1, List.length_append, h1, Nat.add_sub_cancel]
    exact List.drop_left x (gs "?")

/-- Trimming the `"?"` suffix recovers the left part. -/
theorem trimSuffixL_concat_q (x : GoStr) :
    trimSuffixL (x ++ gs "?") (gs "?") = x := by
  unfold trimSuffixL
  rw [if_pos (hasSuffixL_concat_q x)]
  have h1 : (gs "?").length = 1 := rfl
  rw [h1, List.length_append, h1, Nat.add_sub_cancel]
  exact List.take_left x (gs "?")

/-- A string ending in the appended `"?"` does not start with whitespace
when its left part does not. -/
theorem head_not_space_concat_q (C : GoStr)
    (hC : ∀ c, C.head? = some c → isSpaceChar c = false) :
    ∀ c, (C ++ gs "?").head? = some c → isSpaceChar c = false := by
  cases C with
  | nil =>
    intro c hc
    cases hc
    decide
  | cons a r =>
    intro c hc
    cases hc
    exact hC a rfl

/-- A string ending in the appended `"?"` ends in `'?'`, not whitespace. -/
theorem getLast_not_space_concat_q (C : GoStr) :
    ∀ c, (C ++ gs "?").getLast? = some c → isSpaceChar c = false := by
  intro c hc
  have hq : (C ++ gs "?").getLast? = some '?' := List.getLast?_concat C
  rw [hq] at hc
  cases hc
  decide

/-- `toLowerL` acts on the head pointwise. -/
theorem head?_toLowerL (x : GoStr) :
    (toLowerL x).head? = x.head?.map lowerChar := by
  cases x <;> rfl

/-- `toLowerL` acts on the last character pointwise. -/
theorem getLast?_toLowerL (x : GoStr) :
    (toLowerL x).getLast? = x.getLast?.map lowerChar := by
  calc (toLowerL x).getLast?
      = (toLowerL x).reverse.head? := (List.head?_reverse _).symm
    _ = (toLowerL x.reverse).head? := by
        unfold toLowerL
        rw [List.map_reverse]
    _ = x.reverse.head?.map lowerChar := head?_toLowerL _
    _ = x.getLast?.map lowerChar := by rw [List.head?_reverse]

/-- Canonicalizing a canonical nullable token `C ++ "?"` gives it back:
the trailing `"?"` is stripped first, so the base is recovered intact. -/
theorem getCanonical_fixes_nullable_token (C : GoStr)
    (hlowC : ∀ c ∈ C, lowerChar c = c)
    (hheadC : ∀ c, C.head? = some c → isSpaceChar c = false)
    (hfix : canonSwitch C = C) :
    GetCanonicalType (C ++ gs "?") = C ++ gs "?" := by
  have htrimo : trimSpaceL (C ++ gs "?") = C ++ gs "?" :=
    trimSpaceL_eq_self _ (head_not_space_concat_q C hheadC)
      (getLast_not_space_concat_q C)
  have hlowo : toLowerL (C ++ gs "?") = C ++ gs "?" := by
    apply toLowerL_eq_self
    intro c hc
    rcases List.mem_append.mp hc with h | h
    · exact hlowC c h
    · have hq : c = '?' := List.mem_singleton.mp h
      subst hq
      decide
  have hEo : extractNullableType (C ++ gs "?") = (C, true) := by
    unfold extractNullableType
    rw [htrimo]
    unfold extractNullableCore
    rw [if_pos (hasSuffixL_concat_q C), trimSuffixL_concat_q]
  unfold GetCanonicalType
  rw [htrimo, hlowo, hEo]
  show canonSwitch C ++ gs "?" = C ++ gs "?"
  rw [hfix]

/-- Canonicalizing a canonical non-nullable token gives it back. -/
theorem getCanonical_fixes_plain_token (u : GoStr)
    (hlow : ∀ c ∈ u, lowerChar c = c) (htrim : trimSpaceL u = u)
    (hEu : extractNullableType u = (u, false)) :
    GetCanonicalType (canonSwitch u) = canonSwitch u := by
  rcases canonSwitch_cases u with h | h
  · rw [h]
    unfold GetCanonicalType
    rw [htrim, toLowerL_eq_self u hlow, hEu]
    show canonSwitch u = u
    exact h
  · have hx : ∀ x ∈ canonSources,
        GetCanonicalType (canonSwitch x) = canonSwitch x := by decide
    exact hx u h

end Agree

namespace Agree

/-- C10: canonicalization is idempotent — for every input string `t`,
`GetCanonicalType (GetCanonicalType t) = GetCanonicalType t`, including
inputs carrying any of the recognized nullability markers. -/
theorem C10_getCanonicalType_idempotent (t : GoStr) :
    GetCanonicalType (GetCanonicalType t) = GetCanonicalType t := by
  have hlowu : ∀ c ∈ toLowerL (trimSpaceL t), lowerChar c = c :=
    allLower_toLowerL (trimSpaceL t)
  have htrimu : trimSpaceL (toLowerL (trimSpaceL t)) = toLowerL (trimSpaceL t) := by
    apply trimSpaceL_eq_self
    · intro c hc
      rw [head?_toLowerL] at hc
      rcases hh : (trimSpaceL t).head? with _ | a <;> rw [hh] at hc
      · cases hc
      · cases hc
        rw [isSpaceChar_lowerChar]
        exact head?_trimSpaceL t a hh
    · intro c hc
      rw [getLast?_toLowerL] at hc
      rcases hh : (trimSpaceL t).getLast? with _ | a <;> rw [hh] at hc
      · cases hc
      · cases hc
        rw [isSpaceChar_lowerChar]
        exact getLast?_trimSpaceL t a hh
  by_cases hflag : (extractNullableType (toLowerL (trimSpaceL t))).2 = true
  · have hGt : GetCanonicalType t
        = canonSwitch (extractNullableType (toLowerL (trimSpaceL t))).1 ++ gs "?" := by
      unfold GetCanonicalType canonAddNullable
      rw [if_pos hflag]
    obtain ⟨hlowC, hheadC⟩ := canonSwitch_preserves _
      (extractNullable_lower _ hlowu htrimu) (extractNullable_head _ htrimu)
    rw [hGt]
    exact getCanonical_fixes_nullable_token _ hlowC hheadC (canonSwitch_idem _)
  · have hf : (extractNullableType (toLowerL (trimSpaceL t))).2 = false := by
      cases hv : (extractNullableType (toLowerL (trimSpaceL t))).2
      · rfl
      · exact absurd hv hflag
    have hEu : extractNullableType (toLowerL (trimSpaceL t))
        = (toLowerL (trimSpaceL t), false) := by
      have h2 : extractNullableType (toLowerL (trimSpaceL t))
          = ((extractNullableType (toLowerL (trimSpaceL t))).1,
             (extractNullableType (toLowerL (trimSpaceL t))).2) := rfl
      rw [h2, extractNullable_false _ htrimu hf, hf]
    have hGt : GetCanonicalType t = canonSwitch (toLowerL (trimSpaceL t)) := by
      unfold GetCanonicalType
      rw [hEu]
      rfl
    rw [hGt]
    exact getCanonical_fixes_plain_token _ hlowu htrimu hEu

/-- C3 witness: `equivalent("string", "string?")` is false; only the right
side is nullable while the bases match. -/
theorem C3_witness :
    toLowerL (trimSpaceL (gs "string")) ≠ toLowerL (trimSpaceL (gs "string?")) ∧
    (extractNullableType (toLowerL (trimSpaceL (gs "string")))).2
      ≠ (extractNullableType (toLowerL (trimSpaceL (gs "string?")))).2 ∧
    AreTypesEquivalent NewTypeEquivalenceMap (gs "string") (gs "string?") = false :=
  ⟨by decide, by decide,
    C3_differing_nullability_not_equivalent NewTypeEquivalenceMap
      (gs "string") (gs "string?") (by decide) (by decide)⟩

end Agree
